import Mathlib

/-!
Shallow embedding of the `nestjs-guessmygeo` backend services
(`AuthService` in `src/auth/auth.service.ts` and `ActionsService` in
`src/actions/actions.service.ts`), faithful to the TypeScript source.

Modelling conventions:
* The relational store is a `List` of records; `usersRepo.findOne({where:{username}})`
  is `List.find?` on the username column, `insert` appends, `update(criteria, entity)`
  replaces every row matching the criteria by the entity, and `save` upserts by the
  unique `username` key.
* `bcrypt` (an external primitive, spec section 6: one-way salted digest) is modelled
  as a deterministic injective digest `bhash` with `bcompare pass hash` deciding
  `hash = bhash pass`; this captures exactly the verify-against-stored-hash relation
  the service relies on.
* `jwtService.sign({username})` is modelled as an injective tagging function `signJWT`.
* TypeORM `Like` with pattern `'%' ++ term ++ '%'` against the Postgres backend
  (`constants.ts` declares `type: 'postgres'`, where `LIKE` is case-sensitive) is
  modelled as case-sensitive substring containment `strContains`.
* Thrown HTTP exceptions become `Except.error` values of `ServiceErr`; operations
  that mutate the store return the resulting store alongside the outcome, so that a
  write performed before a throw (as in `editInfo`) is observable.
* JavaScript truthiness of an optional string (`if (pass)`, the ternary on `search`)
  is `some s` with `s ≠ ""`.
* The file system receiving avatar uploads is a list of path names; `fs.unlink`
  removes a path (its fire-and-forget callback swallows errors, per source).
-/

/-- Substring test on character lists: does `p` occur contiguously in `s`? -/
def containsSub (p : List Char) : List Char → Bool
  | [] => p.isEmpty
  | c :: cs => p.isPrefixOf (c :: cs) || containsSub p cs

/-- Case-sensitive substring containment on strings: the meaning of the SQL
clause `col LIKE '%' || p || '%'` under Postgres for a wildcard-free term. -/
def strContains (p s : String) : Bool :=
  containsSub p.data s.data

/-- Case-insensitive substring containment; used to state what a
case-insensitive search would return. -/
def ciContains (p s : String) : Bool :=
  containsSub (p.data.map Char.toUpper) (s.data.map Char.toUpper)

/-- Model of `bcrypt.hash(pass, 9)`: a deterministic injective digest. -/
def bhash (p : String) : String :=
  ⟨'#' :: p.data⟩

/-- Model of `bcrypt.compare(pass, hash)`: does `hash` verify `pass`? -/
def bcompare (pass hash : String) : Bool :=
  decide (hash = bhash pass)

/-- Model of `jwtService.sign({ username })`. -/
def signJWT (username : String) : String :=
  ⟨'@' :: username.data⟩

/-- JavaScript truthiness of an optional string value
(`undefined`/`null` and `""` are falsy). -/
def optTruthy : Option String → Bool
  | some s => decide (s ≠ "")
  | none => false

/-- The `User` entity: username (unique key), password hash, profile
fields, optional avatar file reference. -/
structure User where
  username : String
  pass : String
  name : String
  surname : String
  email : String
  avatar : Option String
deriving DecidableEq, Repr

/-- Errors thrown by the services (NestJS HTTP exceptions). -/
inductive ServiceErr where
  | conflict (msg : String)
  | unauthorized (msg : String)
  | notFound (msg : String)
  | internal (msg : String)
deriving DecidableEq, Repr

/-- Body of `UserRegisterDTO`. -/
structure UserRegisterDTO where
  username : String
  pass : String
  name : String
  surname : String
  email : String
deriving DecidableEq, Repr

/-- Body of `AuthCredentialsDTO`. -/
structure AuthCredentialsDTO where
  username : String
  pass : String
deriving DecidableEq, Repr

/-- Body of `InfoEditDTO`. -/
structure InfoEditDTO where
  username : String
  name : String
  surname : String
  email : String
deriving DecidableEq, Repr

/-- Body of `PassChangeDTO`; `pass` (the current password) is optional. -/
structure PassChangeDTO where
  pass : Option String
  newPass : String
deriving DecidableEq, Repr

/-- Process configuration: the superuser pair. `SUPERUSER_PASS` holds a
bcrypt hash (the source verifies it with `bcrypt.compare`). -/
structure Config where
  SUPERUSER : String
  SUPERUSER_PASS : String
deriving DecidableEq, Repr

/-- Result of a successful login: the token and the optional privilege
marker. -/
structure LoginResult where
  jwt : String
  privilege : Option String
deriving DecidableEq, Repr

/-- `usersRepo.findOne({ where: { username } })`. -/
def findByUsername (tbl : List User) (username : String) : Option User :=
  tbl.find? (fun u => u.username == username)

/-- `usersRepo.update(key, entity)`: replace every row whose username is
`key` by `entity`. -/
def updateByUsername (tbl : List User) (key : String) (v : User) : List User :=
  tbl.map (fun w => if w.username == key then v else w)

/-- `usersRepo.save(entity)`: upsert keyed by the unique username. -/
def save (u : User) (tbl : List User) : List User :=
  if tbl.any (fun w => w.username == u.username) then updateByUsername tbl u.username u
  else tbl ++ [u]

/-- `AuthService.register`: reject a taken username with Conflict, else
hash the password and insert the new record. -/
def register (dto : UserRegisterDTO) (tbl : List User) :
    Except ServiceErr Unit × List User :=
  match findByUsername tbl dto.username with
  | some _ =>
      (.error (.conflict ("Username " ++ dto.username ++ " is already in use.")), tbl)
  | none =>
      (.ok (), tbl ++ [⟨dto.username, bhash dto.pass, dto.name, dto.surname, dto.email, none⟩])

/-- Does the credential pair match the configured superuser pair? (the
condition of the second `if` in `AuthService.login`) -/
def superuserMatch (dto : AuthCredentialsDTO) (cfg : Config) : Bool :=
  dto.username == cfg.SUPERUSER && bcompare dto.pass cfg.SUPERUSER_PASS

/-- The tail of `AuthService.login` after the stored-user check failed:
try the superuser pair, else throw Unauthorized. -/
def loginSuperuserStep (dto : AuthCredentialsDTO) (cfg : Config) :
    Except ServiceErr LoginResult :=
  if superuserMatch dto cfg then .ok ⟨signJWT dto.username, some "admin"⟩
  else .error (.unauthorized "Check your credentials.")

/-- `AuthService.login`: stored-user path first, then the superuser path,
else Unauthorized. Leaves the store untouched. -/
def login (dto : AuthCredentialsDTO) (tbl : List User) (cfg : Config) :
    Except ServiceErr LoginResult :=
  match findByUsername tbl dto.username with
  | some u =>
      if bcompare dto.pass u.pass then .ok ⟨signJWT dto.username, none⟩
      else loginSuperuserStep dto cfg
  | none => loginSuperuserStep dto cfg

/-- `AuthService.selectUsers`: rows whose username is LIKE
`'%' ++ search ++ '%'`. -/
def selectUsers (search : String) (tbl : List User) : List User :=
  tbl.filter (fun u => strContains search u.username)

/-- `AuthService.editInfo`: check the new username for a clash only when it
differs, apply the non-conflicting field updates, persist keyed by the old
username, and only then raise the Conflict when the clash was found. -/
def editInfo (user : User) (dto : InfoEditDTO) (tbl : List User) :
    Except ServiceErr String × List User :=
  let exist : Bool :=
    if dto.username ≠ user.username then tbl.any (fun w => w.username == dto.username)
    else false
  let updated : User :=
    { user with
      username := if exist then user.username else dto.username
      name := dto.name
      surname := dto.surname
      email := dto.email }
  let tbl' := updateByUsername tbl user.username updated
  if exist then
    (.error (.conflict ("Username " ++ dto.username ++ " is already in use.")), tbl')
  else
    (.ok (signJWT dto.username), tbl')

/-- `AuthService.changePass`: when a truthy current password is supplied it
must verify, else Conflict before any write; then re-hash `newPass` and
persist keyed by the username. -/
def changePass (user : User) (dto : PassChangeDTO) (tbl : List User) :
    Except ServiceErr Unit × List User :=
  if optTruthy dto.pass ∧ bcompare (dto.pass.getD "") user.pass = false then
    (.error (.conflict "Invalid current password."), tbl)
  else
    (.ok (), updateByUsername tbl user.username { user with pass := bhash dto.newPass })

/-- `AuthService.uploadAvatar`: with an avatar already set, unlink the
fresh upload and throw Conflict without touching the store; otherwise store
the reference and save. -/
def uploadAvatar (user : User) (filename : String) (tbl : List User)
    (fs : List String) :
    Except ServiceErr String × List User × List String :=
  if optTruthy user.avatar then
    (.error (.conflict "Avatar has already been uploaded."), tbl,
      fs.erase ("uploads/" ++ filename))
  else
    (.ok filename, save { user with avatar := some filename } tbl, fs)

/-- The `ActionType` enum. -/
inductive ActionType where
  | click
  | scroll
  | input
deriving DecidableEq, Repr

/-- The `Action` entity; `user` is the owning-user reference column the
`Like` clause of `selectActions` is matched against, `performedAt` the
creation timestamp. -/
structure ActionRow where
  id : String
  type : ActionType
  component : String
  value : Option String
  url : String
  performedAt : Nat
  user : String
deriving DecidableEq, Repr

/-- Body of `ActionsFilterDTO`: a pagination limit and an optional search
term. -/
structure ActionsFilterDTO where
  limit : Nat
  search : Option String
deriving DecidableEq, Repr

/-- `ORDER BY performedAt DESC`: the earlier row's timestamp is at least
the later row's. -/
def actDesc (a b : ActionRow) : Prop :=
  b.performedAt ≤ a.performedAt

instance : DecidableRel actDesc := fun a b => Nat.decLe b.performedAt a.performedAt

instance : IsTotal ActionRow actDesc :=
  ⟨fun a b => Nat.le_total b.performedAt a.performedAt⟩

instance : IsTrans ActionRow actDesc :=
  ⟨fun _ _ _ h1 h2 => Nat.le_trans h2 h1⟩

/-- `ActionsService.selectActions`: optional substring restriction on the
owning user, order by `performedAt` descending, take at most `limit`. -/
def selectActions (dto : ActionsFilterDTO) (tbl : List ActionRow) : List ActionRow :=
  let base :=
    match dto.search with
    | some s => if s ≠ "" then tbl.filter (fun a => strContains s a.user) else tbl
    | none => tbl
  (List.insertionSort actDesc base).take dto.limit

/-- `ActionsService.removeAction`: delete the rows with the given id and
report whether any row was affected. -/
def removeAction (id : String) (tbl : List ActionRow) :
    Except ServiceErr Bool × List ActionRow :=
  (.ok (tbl.any (fun a => a.id == id)), tbl.filter (fun a => a.id != id))

/-- Modelled from the spec: `ActionsController.removeAction` is not under
`src/` (only `ActionsService` and the controller's test are); per spec
section 4.2 the endpoint "fails with NotFound if no row matched; otherwise
returns true", which the controller test asserts as a thrown
`NotFoundException`. -/
def removeActionEndpoint (id : String) (tbl : List ActionRow) :
    Except ServiceErr Bool × List ActionRow :=
  match removeAction id tbl with
  | (.ok false, tbl') => (.error (.notFound ("Action " ++ id ++ " was not found.")), tbl')
  | r => r

/-- Is the outcome a thrown Conflict? -/
def isConflict {α : Type} : Except ServiceErr α → Bool
  | .error (.conflict _) => true
  | _ => false

/-- Is the outcome a thrown Unauthorized? -/
def isUnauthorized {α : Type} : Except ServiceErr α → Bool
  | .error (.unauthorized _) => true
  | _ => false

/-- Is the outcome a thrown NotFound? -/
def isNotFoundErr {α : Type} : Except ServiceErr α → Bool
  | .error (.notFound _) => true
  | _ => false

/-- Did the call succeed? -/
def isOk {α : Type} : Except ServiceErr α → Bool
  | .ok _ => true
  | _ => false

/-- Sample registration body used by witnesses. -/
def aliceDTO : UserRegisterDTO :=
  ⟨"alice", "pw1", "Alice", "Liddell", "alice@example.com"⟩

/-- The record `register aliceDTO` persists. -/
def aliceRec : User :=
  ⟨"alice", bhash "pw1", "Alice", "Liddell", "alice@example.com", none⟩

/-- A second sample user. -/
def bobRec : User :=
  ⟨"bob", bhash "pwb", "Bob", "Builder", "bob@example.com", none⟩

/-- A sample user with an avatar already set. -/
def carolRec : User :=
  ⟨"carol", bhash "pwc", "Carol", "Chan", "carol@example.com", some "old.png"⟩

/-- A configuration whose superuser pair is `root` / `rootpw`
(`SUPERUSER_PASS` holds the hash, as the source compares it with bcrypt). -/
def rootCfg : Config :=
  ⟨"root", bhash "rootpw"⟩

/-- A stored user record that also carries the superuser's username and a
hash verifying the superuser's password. -/
def rootRec : User :=
  ⟨"root", bhash "rootpw", "Root", "Radical", "root@example.com", none⟩

/-- Sample event rows used by witnesses. -/
def act1 : ActionRow :=
  ⟨"a1", .click, "<button>", none, "http://guessmygeo.com", 10, "alice"⟩

/-- Second sample event row. -/
def act2 : ActionRow :=
  ⟨"a2", .scroll, "<section>", some "150", "http://guessmygeo.com/locations", 20, "alice"⟩

/-- Third sample event row. -/
def act3 : ActionRow :=
  ⟨"a3", .input, "<input>", none, "http://guessmygeo.com/locations", 15, "bob"⟩

theorem bhash_inj {a b : String} : bhash a = bhash b ↔ a = b := by
  constructor
  · intro h
    have h2 : '#' :: a.data = '#' :: b.data := congrArg String.data h
    exact String.ext (by injection h2)
  · intro h
    rw [h]

theorem bcompare_bhash {p q : String} : bcompare p (bhash q) = true ↔ q = p := by
  simp [bcompare, bhash_inj]

theorem containsSub_iff (p s : List Char) :
    containsSub p s = true ↔ ∃ l r, s = l ++ p ++ r := by
  induction s with
  | nil =>
    simp only [containsSub, List.isEmpty_iff]
    constructor
    · rintro rfl
      exact ⟨[], [], rfl⟩
    · rintro ⟨l, r, h⟩
      have h' := h.symm
      simp only [List.append_assoc, List.append_eq_nil] at h'
      exact h'.2.1
  | cons c cs ih =>
    simp only [containsSub, Bool.or_eq_true, ih, List.isPrefixOf_iff_prefix]
    constructor
    · rintro (⟨t, ht⟩ | ⟨l, r, rfl⟩)
      · exact ⟨[], t, by simp [ht.symm]⟩
      · exact ⟨c :: l, r, by simp⟩
    · rintro ⟨l, r, hl⟩
      cases l with
      | nil =>
        exact Or.inl ⟨r, by simpa using hl.symm⟩
      | cons x xs =>
        have hx : c = x ∧ cs = xs ++ p ++ r := by
          simpa using hl
        exact Or.inr ⟨xs, r, hx.2⟩

theorem strContains_iff (p s : String) :
    strContains p s = true ↔ ∃ pre post : String, s = pre ++ p ++ post := by
  rw [strContains, containsSub_iff]
  constructor
  · rintro ⟨l, r, h⟩
    exact ⟨⟨l⟩, ⟨r⟩, String.ext (by simpa using h)⟩
  · rintro ⟨pre, post, rfl⟩
    exact ⟨pre.data, post.data, by simp⟩

theorem find?_updateByUsername (tbl : List User) (key : String) (v : User)
    (hv : v.username = key)
    (hsome : (tbl.find? (fun w => w.username == key)).isSome = true) :
    (updateByUsername tbl key v).find? (fun w => w.username == key) = some v := by
  induction tbl with
  | nil => simp at hsome
  | cons w t ih =>
    by_cases hw : (w.username == key) = true
    · show (List.find? (fun u => u.username == key)
        ((if w.username == key then v else w) :: updateByUsername t key v)) = some v
      rw [if_pos hw]
      exact List.find?_cons_of_pos _ (by simp [hv])
    · have hsome' : (t.find? (fun u => u.username == key)).isSome = true := by
        rwa [@List.find?_cons_of_neg _ (fun u => u.username == key) w t hw] at hsome
      show (List.find? (fun u => u.username == key)
        ((if w.username == key then v else w) :: updateByUsername t key v)) = some v
      rw [if_neg hw,
        @List.find?_cons_of_neg _ (fun u => u.username == key) w (updateByUsername t key v) hw]
      exact ih hsome'

theorem map_username_updateByUsername (tbl : List User) (key : String) (v : User)
    (hv : v.username = key) :
    (updateByUsername tbl key v).map (fun w => w.username) =
      tbl.map (fun w => w.username) := by
  induction tbl with
  | nil => rfl
  | cons w t ih =>
    show (List.map (fun u => u.username)
        ((if w.username == key then v else w) :: updateByUsername t key v)) =
      w.username :: List.map (fun u => u.username) t
    by_cases hw : (w.username == key) = true
    · have hwk : w.username = key := by simpa using hw
      rw [if_pos hw, List.map_cons]
      show v.username :: (updateByUsername t key v).map (fun u => u.username) = _
      rw [ih, hv, hwk]
    · rw [if_neg hw, List.map_cons]
      show w.username :: (updateByUsername t key v).map (fun u => u.username) = _
      rw [ih]

theorem register_fresh (dto : UserRegisterDTO) (tbl : List User)
    (h : findByUsername tbl dto.username = none) :
    register dto tbl =
      (.ok (), tbl ++ [⟨dto.username, bhash dto.pass, dto.name, dto.surname, dto.email, none⟩]) := by
  unfold register
  rw [h]

theorem register_found (dto : UserRegisterDTO) (tbl : List User) (u : User)
    (h : findByUsername tbl dto.username = some u) :
    register dto tbl =
      (.error (.conflict ("Username " ++ dto.username ++ " is already in use.")), tbl) := by
  unfold register
  rw [h]

theorem login_found (dto : AuthCredentialsDTO) (tbl : List User) (cfg : Config) (u : User)
    (h : findByUsername tbl dto.username = some u) :
    login dto tbl cfg =
      if bcompare dto.pass u.pass then .ok ⟨signJWT dto.username, none⟩
      else loginSuperuserStep dto cfg := by
  unfold login
  rw [h]

theorem login_not_found (dto : AuthCredentialsDTO) (tbl : List User) (cfg : Config)
    (h : findByUsername tbl dto.username = none) :
    login dto tbl cfg = loginSuperuserStep dto cfg := by
  unfold login
  rw [h]

/-- C2: for a username with no existing record, the first `register`
succeeds and appends the new record, and a second `register` of the same
username fails with Conflict while leaving the store exactly as the first
call left it. -/
theorem register_twice_conflict (dto dto' : UserRegisterDTO) (tbl : List User)
    (hfresh : findByUsername tbl dto.username = none)
    (hsame : dto'.username = dto.username) :
    (register dto tbl).1 = .ok ()
    ∧ isConflict (register dto' (register dto tbl).2).1 = true
    ∧ (register dto' (register dto tbl).2).2 = (register dto tbl).2 := by
  have h2 : (register dto tbl).2 =
      tbl ++ [⟨dto.username, bhash dto.pass, dto.name, dto.surname, dto.email, none⟩] := by
    rw [register_fresh dto tbl hfresh]
  have hfind : findByUsername (register dto tbl).2 dto'.username =
      some ⟨dto.username, bhash dto.pass, dto.name, dto.surname, dto.email, none⟩ := by
    rw [h2]
    unfold findByUsername at hfresh ⊢
    rw [hsame, List.find?_append, hfresh]
    simp
  refine ⟨by rw [register_fresh dto tbl hfresh], ?_, ?_⟩
  · rw [register_found dto' (register dto tbl).2 _ hfind]
    rfl
  · rw [register_found dto' (register dto tbl).2 _ hfind]

/-- Witness for C2 at a concrete input: registering `alice` twice on an
empty store. -/
theorem register_twice_conflict_witness :
    (findByUsername [] aliceDTO.username = none ∧ aliceDTO.username = aliceDTO.username)
    ∧ ((register aliceDTO []).1 = .ok ()
      ∧ isConflict (register aliceDTO (register aliceDTO []).2).1 = true
      ∧ (register aliceDTO (register aliceDTO []).2).2 = (register aliceDTO []).2) :=
  ⟨⟨rfl, rfl⟩, register_twice_conflict aliceDTO aliceDTO [] rfl rfl⟩

/-- Counterexample to C1 as stated: after registering the username `root`
with password `pw1` under a configuration whose superuser pair is
`root`/`rootpw`, the login `(root, rootpw)` supplies a password that does
not match the registered one, yet it succeeds (through the superuser path)
instead of failing with Unauthorized. -/
theorem login_wrong_password_cex :
    ("rootpw" ≠ "pw1")
    ∧ isOk (login ⟨"root", "rootpw"⟩
        (register ⟨"root", "pw1", "Root", "Radical", "root@example.com"⟩ []).2 rootCfg) = true := by
  constructor
  · decide
  · rfl

/-- C1 (amended): after a successful registration, login with the same
password succeeds with a plain token, and login with any non-matching
password fails with Unauthorized, except when the attempted pair happens to
be the configured superuser pair. -/
theorem register_login_roundtrip (dto : UserRegisterDTO) (tbl : List User) (cfg : Config)
    (hfresh : findByUsername tbl dto.username = none) :
    login ⟨dto.username, dto.pass⟩ (register dto tbl).2 cfg = .ok ⟨signJWT dto.username, none⟩
    ∧ (∀ p' : String, p' ≠ dto.pass →
        ¬(dto.username = cfg.SUPERUSER ∧ bcompare p' cfg.SUPERUSER_PASS = true) →
        isUnauthorized (login ⟨dto.username, p'⟩ (register dto tbl).2 cfg) = true) := by
  have h2 : (register dto tbl).2 =
      tbl ++ [⟨dto.username, bhash dto.pass, dto.name, dto.surname, dto.email, none⟩] := by
    rw [register_fresh dto tbl hfresh]
  have hfind : findByUsername (register dto tbl).2 dto.username =
      some ⟨dto.username, bhash dto.pass, dto.name, dto.surname, dto.email, none⟩ := by
    rw [h2]
    unfold findByUsername at hfresh ⊢
    rw [List.find?_append, hfresh]
    simp
  constructor
  · rw [login_found ⟨dto.username, dto.pass⟩ (register dto tbl).2 cfg _ hfind]
    rw [if_pos (bcompare_bhash.mpr rfl)]
  · intro p' hne hnsup
    rw [login_found ⟨dto.username, p'⟩ (register dto tbl).2 cfg _ hfind]
    rw [if_neg (fun h => hne (bcompare_bhash.mp h).symm)]
    unfold loginSuperuserStep
    rw [if_neg ?hnm]
    case hnm =>
      intro h
      have h' : dto.username = cfg.SUPERUSER ∧ bcompare p' cfg.SUPERUSER_PASS = true := by
        simpa [superuserMatch, Bool.and_eq_true, beq_iff_eq] using h
      exact hnsup h'
    rfl

/-- Witness for the amended C1 at a concrete input: register `alice` on an
empty store, then log in with the right and with a wrong password. -/
theorem register_login_roundtrip_witness :
    findByUsername [] aliceDTO.username = none
    ∧ (login ⟨aliceDTO.username, aliceDTO.pass⟩ (register aliceDTO []).2 rootCfg =
        .ok ⟨signJWT aliceDTO.username, none⟩
      ∧ (∀ p' : String, p' ≠ aliceDTO.pass →
          ¬(aliceDTO.username = rootCfg.SUPERUSER ∧ bcompare p' rootCfg.SUPERUSER_PASS = true) →
          isUnauthorized (login ⟨aliceDTO.username, p'⟩ (register aliceDTO []).2 rootCfg) = true)) :=
  ⟨rfl, register_login_roundtrip aliceDTO [] rootCfg rfl⟩

/-- Counterexample to C3 as stated: with the superuser pair `root`/`rootpw`
configured, the same superuser credentials produce different results on two
different user-table states — on the empty table the token carries the
`admin` marker, but when a user named `root` with a hash verifying `rootpw`
is stored, the stored-user path wins and the token lacks the marker. -/
theorem superuser_login_cex :
    superuserMatch ⟨"root", "rootpw"⟩ rootCfg = true
    ∧ login ⟨"root", "rootpw"⟩ [] rootCfg = .ok ⟨signJWT "root", some "admin"⟩
    ∧ login ⟨"root", "rootpw"⟩ [rootRec] rootCfg = .ok ⟨signJWT "root", none⟩
    ∧ some "admin" ≠ (none : Option String) := by
  exact ⟨rfl, rfl, rfl, by decide⟩

/-- C3 (amended): when the supplied credentials match the configured
superuser pair, login succeeds in every user-table state; the returned
token carries the `admin` marker provided no stored record with that
username verifies the supplied password (otherwise login succeeds through
the stored-user path, without the marker). -/
theorem superuser_login_amended (creds : AuthCredentialsDTO) (cfg : Config) (tbl : List User)
    (hmatch : superuserMatch creds cfg = true) :
    isOk (login creds tbl cfg) = true
    ∧ ((∀ u ∈ tbl, u.username = creds.username → bcompare creds.pass u.pass = false) →
        login creds tbl cfg = .ok ⟨signJWT creds.username, some "admin"⟩) := by
  have hsup : loginSuperuserStep creds cfg = .ok ⟨signJWT creds.username, some "admin"⟩ := by
    unfold loginSuperuserStep
    rw [if_pos hmatch]
  constructor
  · cases hf : findByUsername tbl creds.username with
    | none =>
      rw [login_not_found creds tbl cfg hf, hsup]
      rfl
    | some u =>
      rw [login_found creds tbl cfg u hf]
      by_cases hb : bcompare creds.pass u.pass = true
      · rw [if_pos hb]
        rfl
      · rw [if_neg hb, hsup]
        rfl
  · intro hall
    cases hf : findByUsername tbl creds.username with
    | none =>
      rw [login_not_found creds tbl cfg hf, hsup]
    | some u =>
      have hf' : tbl.find? (fun w => w.username == creds.username) = some u := hf
      have hmem : u ∈ tbl := List.mem_of_find?_eq_some hf'
      have hname : u.username = creds.username := by
        have := List.find?_some hf'
        simpa [beq_iff_eq] using this
      have hfalse : bcompare creds.pass u.pass = false := hall u hmem hname
      rw [login_found creds tbl cfg u hf, if_neg (by simp [hfalse]), hsup]

/-- Witness for the amended C3 at a concrete input: superuser login over a
table holding only `alice`. -/
theorem superuser_login_amended_witness :
    superuserMatch ⟨"root", "rootpw"⟩ rootCfg = true
    ∧ (isOk (login ⟨"root", "rootpw"⟩ [aliceRec] rootCfg) = true
      ∧ ((∀ u ∈ [aliceRec], u.username = "root" → bcompare "rootpw" u.pass = false) →
          login ⟨"root", "rootpw"⟩ [aliceRec] rootCfg = .ok ⟨signJWT "root", some "admin"⟩)) :=
  ⟨rfl, superuser_login_amended ⟨"root", "rootpw"⟩ rootCfg [aliceRec] rfl⟩

theorem editInfo_exist (user : User) (dto : InfoEditDTO) (tbl : List User)
    (hneq : dto.username ≠ user.username)
    (hexist : tbl.any (fun w => w.username == dto.username) = true) :
    editInfo user dto tbl =
      (.error (.conflict ("Username " ++ dto.username ++ " is already in use.")),
       updateByUsername tbl user.username
         { user with name := dto.name, surname := dto.surname, email := dto.email }) := by
  unfold editInfo
  simp [hneq, hexist]

theorem editInfo_avail (user : User) (dto : InfoEditDTO) (tbl : List User)
    (hneq : dto.username ≠ user.username)
    (hfresh : tbl.any (fun w => w.username == dto.username) = false) :
    editInfo user dto tbl =
      (.ok (signJWT dto.username),
       updateByUsername tbl user.username
         { user with
            username := dto.username
            name := dto.name
            surname := dto.surname
            email := dto.email }) := by
  unfold editInfo
  simp [hneq, hfresh]

theorem editInfo_no_clash (user : User) (dto : InfoEditDTO) (tbl : List User)
    (heq : dto.username = user.username) :
    editInfo user dto tbl =
      (.ok (signJWT dto.username),
       updateByUsername tbl user.username
         { user with
            username := dto.username
            name := dto.name
            surname := dto.surname
            email := dto.email }) := by
  unfold editInfo
  simp [heq]

theorem isSome_of_findByUsername {tbl : List User} {key : String} {u : User}
    (h : findByUsername tbl key = some u) :
    (tbl.find? (fun w => w.username == key)).isSome = true := by
  have h' : tbl.find? (fun w => w.username == key) = some u := h
  rw [h']
  rfl

/-- C4: when the submitted username differs from the caller's and is taken,
`editInfo` fails with Conflict, yet the caller's row is persisted with the
new `name`, `surname` and `email` and its old username, and no row's
username changes. -/
theorem editInfo_conflict_persists (user : User) (dto : InfoEditDTO) (tbl : List User)
    (hfind : findByUsername tbl user.username = some user)
    (hneq : dto.username ≠ user.username)
    (hexist : tbl.any (fun w => w.username == dto.username) = true) :
    isConflict (editInfo user dto tbl).1 = true
    ∧ findByUsername (editInfo user dto tbl).2 user.username =
        some { user with name := dto.name, surname := dto.surname, email := dto.email }
    ∧ (editInfo user dto tbl).2.map (fun w => w.username) = tbl.map (fun w => w.username) := by
  rw [editInfo_exist user dto tbl hneq hexist]
  refine ⟨rfl, ?_, ?_⟩
  · exact find?_updateByUsername tbl user.username _ rfl (isSome_of_findByUsername hfind)
  · exact map_username_updateByUsername tbl user.username _ rfl

/-- Witness for C4 at a concrete input: `alice` submits `bob` as her new
username while `bob` is taken. -/
theorem editInfo_conflict_persists_witness :
    (findByUsername [aliceRec, bobRec] aliceRec.username = some aliceRec
      ∧ ("bob" : String) ≠ aliceRec.username
      ∧ List.any [aliceRec, bobRec] (fun w => w.username == "bob") = true)
    ∧ (isConflict (editInfo aliceRec ⟨"bob", "Alicia", "Liddell", "new@example.com"⟩
          [aliceRec, bobRec]).1 = true
      ∧ findByUsername (editInfo aliceRec ⟨"bob", "Alicia", "Liddell", "new@example.com"⟩
            [aliceRec, bobRec]).2 aliceRec.username =
          some { aliceRec with name := "Alicia", surname := "Liddell", email := "new@example.com" }
      ∧ (editInfo aliceRec ⟨"bob", "Alicia", "Liddell", "new@example.com"⟩
            [aliceRec, bobRec]).2.map (fun w => w.username) =
          [aliceRec, bobRec].map (fun w => w.username)) :=
  ⟨⟨rfl, by decide, rfl⟩,
    editInfo_conflict_persists aliceRec ⟨"bob", "Alicia", "Liddell", "new@example.com"⟩
      [aliceRec, bobRec] rfl (by decide) rfl⟩

/-- C10: `editInfo` raises Conflict exactly when the submitted username
differs from the caller's and is present in the store; when it equals the
caller's current username the edit always succeeds, re-issuing a token and
persisting the remaining profile fields. -/
theorem editInfo_conflict_iff (user : User) (dto : InfoEditDTO) (tbl : List User)
    (hfind : findByUsername tbl user.username = some user) :
    (isConflict (editInfo user dto tbl).1 = true ↔
      dto.username ≠ user.username ∧ tbl.any (fun w => w.username == dto.username) = true)
    ∧ (dto.username = user.username →
        (editInfo user dto tbl).1 = .ok (signJWT dto.username)
        ∧ findByUsername (editInfo user dto tbl).2 user.username =
            some { user with name := dto.name, surname := dto.surname, email := dto.email }) := by
  constructor
  · constructor
    · intro hc
      by_cases heq : dto.username = user.username
      · rw [editInfo_no_clash user dto tbl heq] at hc
        simp [isConflict] at hc
      · by_cases hex : tbl.any (fun w => w.username == dto.username) = true
        · exact ⟨heq, hex⟩
        · have hx : tbl.any (fun w => w.username == dto.username) = false := by
            simpa using hex
          rw [editInfo_avail user dto tbl heq hx] at hc
          simp [isConflict] at hc
    · rintro ⟨hneq, hex⟩
      rw [editInfo_exist user dto tbl hneq hex]
      rfl
  · intro heq
    rw [editInfo_no_clash user dto tbl heq]
    refine ⟨rfl, ?_⟩
    rw [heq]
    exact find?_updateByUsername tbl user.username _ rfl (isSome_of_findByUsername hfind)

/-- Witness for C10 at a concrete input: `alice` keeps her username while
editing the other profile fields, with `alice` present in the table. -/
theorem editInfo_conflict_iff_witness :
    findByUsername [aliceRec, bobRec] aliceRec.username = some aliceRec
    ∧ ((isConflict (editInfo aliceRec ⟨"alice", "Ally", "Liddell", "ally@example.com"⟩
          [aliceRec, bobRec]).1 = true ↔
        ("alice" : String) ≠ aliceRec.username
          ∧ List.any [aliceRec, bobRec] (fun w => w.username == "alice") = true)
      ∧ (("alice" : String) = aliceRec.username →
          (editInfo aliceRec ⟨"alice", "Ally", "Liddell", "ally@example.com"⟩
              [aliceRec, bobRec]).1 = .ok (signJWT "alice")
          ∧ findByUsername (editInfo aliceRec ⟨"alice", "Ally", "Liddell", "ally@example.com"⟩
                [aliceRec, bobRec]).2 aliceRec.username =
              some { aliceRec with
                      name := "Ally"
                      surname := "Liddell"
                      email := "ally@example.com" })) :=
  ⟨rfl, editInfo_conflict_iff aliceRec ⟨"alice", "Ally", "Liddell", "ally@example.com"⟩
    [aliceRec, bobRec] rfl⟩

/-- C9: if a (truthy) current password is supplied and does not verify
against the stored hash, `changePass` fails with Conflict leaving the store
untouched; whenever the call succeeds it persists the hash of the new
password on the caller's row. -/
theorem changePass_spec (user : User) (dto : PassChangeDTO) (tbl : List User)
    (hfind : findByUsername tbl user.username = some user) :
    (∀ p, dto.pass = some p → p ≠ "" → bcompare p user.pass = false →
      changePass user dto tbl = (.error (.conflict "Invalid current password."), tbl))
    ∧ (isOk (changePass user dto tbl).1 = true →
        findByUsername (changePass user dto tbl).2 user.username =
          some { user with pass := bhash dto.newPass }) := by
  constructor
  · intro p hp hne hb
    unfold changePass
    rw [if_pos ⟨by rw [hp]; simpa [optTruthy] using hne, by rw [hp]; simpa using hb⟩]
  · intro hok
    by_cases hc : optTruthy dto.pass = true ∧ bcompare (dto.pass.getD "") user.pass = false
    · exfalso
      unfold changePass at hok
      rw [if_pos hc] at hok
      simp [isOk] at hok
    · unfold changePass
      rw [if_neg hc]
      exact find?_updateByUsername tbl user.username _ rfl (isSome_of_findByUsername hfind)

/-- Witness for C9 at a concrete input: `alice` supplies her correct
current password and `pw2` as the new one. -/
theorem changePass_spec_witness :
    findByUsername [aliceRec] aliceRec.username = some aliceRec
    ∧ ((∀ p, (some "pw1" : Option String) = some p → p ≠ "" → bcompare p aliceRec.pass = false →
          changePass aliceRec ⟨some "pw1", "pw2"⟩ [aliceRec] =
            (.error (.conflict "Invalid current password."), [aliceRec]))
      ∧ (isOk (changePass aliceRec ⟨some "pw1", "pw2"⟩ [aliceRec]).1 = true →
          findByUsername (changePass aliceRec ⟨some "pw1", "pw2"⟩ [aliceRec]).2
              aliceRec.username =
            some { aliceRec with pass := bhash "pw2" })) :=
  ⟨rfl, changePass_spec aliceRec ⟨some "pw1", "pw2"⟩ [aliceRec] rfl⟩

/-- C7: with an avatar already set, `uploadAvatar` fails with Conflict, the
fresh upload is unlinked from the file system, and the store is untouched;
with no avatar set it stores the reference, persists the row and returns
the filename. -/
theorem uploadAvatar_spec (user : User) (fn : String) (tbl : List User) (fs : List String)
    (hfind : findByUsername tbl user.username = some user) :
    (optTruthy user.avatar = true →
      isConflict (uploadAvatar user fn tbl fs).1 = true
      ∧ (uploadAvatar user fn tbl fs).2.1 = tbl
      ∧ (uploadAvatar user fn tbl fs).2.2 = fs.erase ("uploads/" ++ fn))
    ∧ (user.avatar = none →
        (uploadAvatar user fn tbl fs).1 = .ok fn
        ∧ findByUsername (uploadAvatar user fn tbl fs).2.1 user.username =
            some { user with avatar := some fn }
        ∧ (uploadAvatar user fn tbl fs).2.2 = fs) := by
  constructor
  · intro hset
    unfold uploadAvatar
    rw [if_pos hset]
    exact ⟨rfl, rfl, rfl⟩
  · intro hnone
    have hf' : tbl.find? (fun w => w.username == user.username) = some user := hfind
    have hmem : user ∈ tbl := List.mem_of_find?_eq_some hf'
    have hany : tbl.any (fun w => w.username == user.username) = true :=
      List.any_eq_true.mpr ⟨user, hmem, by simp⟩
    unfold uploadAvatar
    rw [if_neg (by simp [optTruthy, hnone])]
    refine ⟨rfl, ?_, rfl⟩
    show findByUsername (save { user with avatar := some fn } tbl) user.username = _
    unfold save
    rw [if_pos hany]
    exact find?_updateByUsername tbl user.username _ rfl (isSome_of_findByUsername hfind)

/-- Witness for C7 at concrete inputs: `carol` (avatar set) hits the
Conflict branch with the upload unlinked; `alice` (no avatar) stores the
reference. -/
theorem uploadAvatar_spec_witness :
    (findByUsername [carolRec] carolRec.username = some carolRec
      ∧ optTruthy carolRec.avatar = true
      ∧ isConflict (uploadAvatar carolRec "new.png" [carolRec] ["uploads/new.png"]).1 = true
      ∧ (uploadAvatar carolRec "new.png" [carolRec] ["uploads/new.png"]).2.2 =
          (["uploads/new.png"] : List String).erase ("uploads/" ++ "new.png"))
    ∧ (findByUsername [aliceRec] aliceRec.username = some aliceRec
      ∧ (uploadAvatar aliceRec "a.png" [aliceRec] ["uploads/a.png"]).1 = .ok "a.png"
      ∧ findByUsername (uploadAvatar aliceRec "a.png" [aliceRec] ["uploads/a.png"]).2.1
            aliceRec.username = some { aliceRec with avatar := some "a.png" }) :=
  ⟨⟨rfl, rfl,
      ((uploadAvatar_spec carolRec "new.png" [carolRec] ["uploads/new.png"] rfl).1 rfl).1,
      ((uploadAvatar_spec carolRec "new.png" [carolRec] ["uploads/new.png"] rfl).1 rfl).2.2⟩,
    ⟨rfl,
      ((uploadAvatar_spec aliceRec "a.png" [aliceRec] ["uploads/a.png"] rfl).2 rfl).1,
      ((uploadAvatar_spec aliceRec "a.png" [aliceRec] ["uploads/a.png"] rfl).2 rfl).2.1⟩⟩

/-- C5: deleting an existing event id returns true and the id is no longer
retrievable from the resulting store; deleting a non-existent id fails with
NotFound. -/
theorem removeAction_endpoint_spec (id : String) (tbl : List ActionRow) :
    ((∃ a ∈ tbl, a.id = id) →
      (removeActionEndpoint id tbl).1 = .ok true
      ∧ ∀ a ∈ (removeActionEndpoint id tbl).2, a.id ≠ id)
    ∧ ((∀ a ∈ tbl, a.id ≠ id) →
        isNotFoundErr (removeActionEndpoint id tbl).1 = true) := by
  have hfilter : ∀ a ∈ tbl.filter (fun a => a.id != id), a.id ≠ id := by
    intro a ha
    have h2 := (List.mem_filter.mp ha).2
    simpa using h2
  constructor
  · rintro ⟨a, hmem, hid⟩
    have hany : tbl.any (fun a => a.id == id) = true :=
      List.any_eq_true.mpr ⟨a, hmem, by simp [hid]⟩
    unfold removeActionEndpoint removeAction
    rw [hany]
    exact ⟨rfl, hfilter⟩
  · intro hall
    have hany : tbl.any (fun a => a.id == id) = false :=
      List.any_eq_false.mpr (fun a hmem => by simpa using hall a hmem)
    unfold removeActionEndpoint removeAction
    rw [hany]
    rfl

/-- Witness for C5 at concrete inputs: deleting the stored id `a1`, and
deleting the unknown id `zz`. -/
theorem removeAction_endpoint_spec_witness :
    ((∃ a ∈ [act1, act2], a.id = "a1")
      ∧ (removeActionEndpoint "a1" [act1, act2]).1 = .ok true
      ∧ (∀ a ∈ (removeActionEndpoint "a1" [act1, act2]).2, a.id ≠ "a1"))
    ∧ ((∀ a ∈ [act1, act2], a.id ≠ "zz")
      ∧ isNotFoundErr (removeActionEndpoint "zz" [act1, act2]).1 = true) :=
  ⟨⟨by decide,
      ((removeAction_endpoint_spec "a1" [act1, act2]).1 (by decide)).1,
      ((removeAction_endpoint_spec "a1" [act1, act2]).1 (by decide)).2⟩,
    ⟨by decide, (removeAction_endpoint_spec "zz" [act1, act2]).2 (by decide)⟩⟩

/-- Counterexample to C6 as stated: the username `alice` matches the search
term `ALICE` case-insensitively, yet `selectUsers "ALICE"` over a store
holding `alice` returns nothing — the source's Postgres LIKE is
case-sensitive. -/
theorem selectUsers_case_cex :
    ciContains "ALICE" aliceRec.username = true
    ∧ aliceRec ∈ [aliceRec]
    ∧ selectUsers "ALICE" [aliceRec] = [] := by
  exact ⟨rfl, by simp, rfl⟩

/-- C6 (amended): `selectUsers s` returns exactly the users whose username
contains `s` as a substring, matched case-sensitively, with unbounded
result size. -/
theorem selectUsers_mem_iff (s : String) (tbl : List User) (u : User) :
    u ∈ selectUsers s tbl ↔
      u ∈ tbl ∧ ∃ pre post : String, u.username = pre ++ s ++ post := by
  unfold selectUsers
  rw [List.mem_filter]
  constructor
  · rintro ⟨hmem, hc⟩
    exact ⟨hmem, (strContains_iff s u.username).mp hc⟩
  · rintro ⟨hmem, hdec⟩
    exact ⟨hmem, (strContains_iff s u.username).mpr hdec⟩

theorem selectActions_none (limit : Nat) (tbl : List ActionRow) :
    selectActions ⟨limit, none⟩ tbl = (List.insertionSort actDesc tbl).take limit := rfl

theorem selectActions_some_ne (limit : Nat) (s : String) (tbl : List ActionRow)
    (h : s ≠ "") :
    selectActions ⟨limit, some s⟩ tbl =
      (List.insertionSort actDesc (tbl.filter (fun a => strContains s a.user))).take limit := by
  show (List.insertionSort actDesc
      (if s ≠ "" then tbl.filter (fun a => strContains s a.user) else tbl)).take limit = _
  rw [if_pos h]

theorem selectActions_some_empty (limit : Nat) (tbl : List ActionRow) :
    selectActions ⟨limit, some ""⟩ tbl = (List.insertionSort actDesc tbl).take limit := by
  show (List.insertionSort actDesc
      (if ("" : String) ≠ "" then tbl.filter (fun a => strContains "" a.user) else tbl)).take
      limit = _
  rw [if_neg (by simp)]

theorem sortTake_length_le (l : List ActionRow) (n : Nat) :
    ((List.insertionSort actDesc l).take n).length ≤ n := by
  rw [List.length_take]
  exact Nat.min_le_left _ _

theorem sortTake_pairwise (l : List ActionRow) (n : Nat) :
    List.Pairwise (fun a b => b.performedAt ≤ a.performedAt)
      ((List.insertionSort actDesc l).take n) :=
  (List.sorted_insertionSort actDesc l).sublist (List.take_sublist n _)

theorem sortTake_mem {l : List ActionRow} {n : Nat} {a : ActionRow}
    (h : a ∈ (List.insertionSort actDesc l).take n) : a ∈ l :=
  (List.mem_insertionSort actDesc).mp ((List.take_sublist n _).mem h)

/-- C8: `selectActions` returns at most `limit` events, ordered by
`performedAt` descending; when a search term is supplied, every returned
event's owning-user reference contains it as a (case-sensitive)
substring. -/
theorem selectActions_spec (dto : ActionsFilterDTO) (tbl : List ActionRow) :
    (selectActions dto tbl).length ≤ dto.limit
    ∧ List.Pairwise (fun a b => b.performedAt ≤ a.performedAt) (selectActions dto tbl)
    ∧ (∀ s, dto.search = some s →
        ∀ a ∈ selectActions dto tbl, ∃ pre post : String, a.user = pre ++ s ++ post) := by
  obtain ⟨limit, search⟩ := dto
  cases search with
  | none =>
    rw [selectActions_none]
    exact ⟨sortTake_length_le tbl limit, sortTake_pairwise tbl limit,
      fun s hs => by simp at hs⟩
  | some s =>
    by_cases hse : s = ""
    · subst hse
      rw [selectActions_some_empty]
      refine ⟨sortTake_length_le tbl limit, sortTake_pairwise tbl limit, ?_⟩
      rintro s' hs' a _
      have hs2 : s' = "" := by
        simpa using hs'.symm
      subst hs2
      exact ⟨"", a.user, String.ext (by simp)⟩
    · rw [selectActions_some_ne limit s tbl hse]
      refine ⟨sortTake_length_le _ limit, sortTake_pairwise _ limit, ?_⟩
      rintro s' hs' a hmem
      have hs2 : s' = s := by
        simpa using hs'.symm
      subst hs2
      have hmem2 := sortTake_mem hmem
      exact (strContains_iff s' a.user).mp (List.mem_filter.mp hmem2).2

/-- Witness for C8 at a concrete input: limit 2 and search term `alice`
over a three-event store. -/
theorem selectActions_spec_witness :
    (selectActions ⟨2, some "alice"⟩ [act1, act3, act2]).length ≤ 2
    ∧ List.Pairwise (fun a b => b.performedAt ≤ a.performedAt)
        (selectActions ⟨2, some "alice"⟩ [act1, act3, act2])
    ∧ (∀ s, (some "alice" : Option String) = some s →
        ∀ a ∈ selectActions ⟨2, some "alice"⟩ [act1, act3, act2],
          ∃ pre post : String, a.user = pre ++ s ++ post) :=
  selectActions_spec ⟨2, some "alice"⟩ [act1, act3, act2]
